import Mathlib

/-!
Verification development for the prebuilt-library packager in `setup.py`
(tree replicator `copy_all_files` / `build_extension` / `_fix_file_permissions`
/ `check_prerequisites`, and the platform tag resolver `PlatformSpecificWheel`).

Filesystem paths are embedded as a flag for absoluteness plus a list of
components (the comma-free pieces between slashes); `os.path.join` of a
directory with a relative path appends components, `os.path.dirname` drops the
last component, and POSIX `normpath` on an absolute path is `normAbs` below.
Host probes that the Python code wraps in try/except (subprocess, os.path
checks) are embedded as `Option`-valued inputs, `none` standing for the probe
raising one of the caught exceptions.
-/

/-- A POSIX path: absolute flag plus components between slashes. -/
structure PPath where
  absolute : Bool
  comps : List String
deriving DecidableEq

/-- `os.path.join a b`: an absolute second argument replaces the first,
otherwise the components are concatenated (no normalisation). -/
def pathJoin (a b : PPath) : PPath :=
  if b.absolute then b else ⟨a.absolute, a.comps ++ b.comps⟩

/-- `os.path.dirname`: drop the final component. -/
def pathDirname (p : PPath) : PPath :=
  ⟨p.absolute, p.comps.dropLast⟩

/-- Component-list normalisation of an absolute path (POSIX `normpath` /
`abspath` on an already absolute path): drop empty and dot components, make a
dotdot component pop the previous one (at the root it vanishes). -/
def normFrom (acc : List String) : List String → List String
  | [] => acc
  | c :: l =>
    if c = "" ∨ c = "." then normFrom acc l
    else if c = ".." then normFrom acc.dropLast l
    else normFrom (acc ++ [c]) l

/-- Normalise the components of an absolute path. -/
def normAbs (l : List String) : List String := normFrom [] l

/-- Length of the common leading run of two component lists (the loop CPython
`posixpath.relpath` runs over the two absolute component lists). -/
def commonLen : List String → List String → Nat
  | [], _ => 0
  | _ :: _, [] => 0
  | a :: as, b :: bs => if a = b then commonLen as bs + 1 else 0

/-- Components of `os.path.relpath path start` for absolute `path`/`start`:
normalise both, then climb out of the uncommon part of `start` with dotdot
components and descend into the uncommon part of `path`. -/
def relpathComps (pathC startC : List String) : List String :=
  let pa := normAbs pathC
  let sa := normAbs startC
  let i := commonLen sa pa
  List.replicate (sa.length - i) ".." ++ pa.drop i

/-- `os.path.relpath` at the path level: always a relative path. -/
def relpathP (path start : PPath) : PPath :=
  ⟨false, relpathComps path.comps start.comps⟩

/-- Resolve a symlink target `t` stored at a link whose directory is `base`:
an absolute target stands alone, a relative one is interpreted from `base`
(kernel symlink resolution, normalised). -/
def resolveAt (base : PPath) (t : PPath) : List String :=
  if t.absolute then normAbs t.comps else normAbs (base.comps ++ t.comps)

/-- `copy_all_files`, symlink branch, lines 86-89: `os.readlink` gave `raw`;
a relative target is joined onto `os.path.dirname(source_path)`. -/
def resolveLinkTarget (source_path raw : PPath) : PPath :=
  if raw.absolute then raw else pathJoin (pathDirname source_path) raw

/-- The target string written by the symlink branch, lines 99-107: normally
`os.path.relpath(link_target, os.path.dirname(destination_path))`; when the
relpath computation raises (`rf = true`) the absolute `link_target` itself. -/
def createdLinkTarget (source_path destination_path raw : PPath) (rf : Bool) : PPath :=
  let lt := resolveLinkTarget source_path raw
  if rf then lt else relpathP lt (pathDirname destination_path)

/-- What the destination path already holds when a symlink is replicated onto
it: nothing, a symlink (whose own target may or may not exist), a directory,
or a regular file. -/
inductive PreEntry
  | noentry
  | symlinkEnt (targetExists : Bool)
  | dirEnt
  | fileEnt
deriving DecidableEq

/-- `os.path.exists`: follows symlinks, so a dangling symlink reports false. -/
def os_path_exists : PreEntry → Bool
  | .noentry => false
  | .symlinkEnt b => b
  | .dirEnt => true
  | .fileEnt => true

/-- `os.path.lexists` / what `os.symlink` checks: does anything occupy the
path itself. -/
def os_path_lexists : PreEntry → Bool
  | .noentry => false
  | _ => true

/-- `os.path.islink`. -/
def os_path_islink : PreEntry → Bool
  | .symlinkEnt _ => true
  | _ => false

/-- `shutil.rmtree`: removes a directory tree; raises on anything else. -/
def shutil_rmtree : PreEntry → Except String PreEntry
  | .dirEnt => .ok .noentry
  | .fileEnt => .error "NotADirectoryError"
  | .symlinkEnt _ => .error "OSError: Cannot call rmtree on a symbolic link"
  | .noentry => .error "FileNotFoundError"

/-- Lines 92-96 of `copy_all_files`: if `os.path.exists(destination_path)`,
unlink it when it is a symlink, otherwise `shutil.rmtree` it. -/
def removeExisting (e : PreEntry) : Except String PreEntry :=
  if os_path_exists e then
    if os_path_islink e then .ok .noentry
    else shutil_rmtree e
  else .ok e

/-- The whole symlink branch, lines 92-107, as a function of the pre-existing
destination entry `e`, the resolved absolute target `lt`, the destination
link directory `d`, and whether the relpath computation raises (`rf`).
Returns the target of the link that gets created, or the uncaught exception:
`os.symlink` raises `FileExistsError` when the path is still occupied, and the
retry with the absolute target in the `except` arm then raises it uncaught. -/
def copySymlinkEntry (e : PreEntry) (lt d : PPath) (rf : Bool) : Except String PPath :=
  match removeExisting e with
  | .error msg => .error msg
  | .ok e2 =>
    if os_path_lexists e2 then .error "FileExistsError"
    else if rf then .ok lt
    else .ok (relpathP lt d)

/-- Is an `Except` a success. -/
def exceptOk : Except String PPath → Bool
  | .ok _ => true
  | .error _ => false

/-- One entry of the source library tree handed to the replicator: a regular
file, a directory with its `os.listdir` listing, or a symlink with its stored
target. -/
inductive SrcEntry
  | file (name : String)
  | dir (name : String) (entries : List SrcEntry)
  | link (name : String) (target : PPath)

/-- One filesystem call issued by `copy_all_files`, with the path it acts on. -/
inductive FsOp
  | listdir (p : PPath)
  | readlink (p : PPath)
  | existsCheck (p : PPath)
  | unlink (p : PPath)
  | rmtree (p : PPath)
  | makedirs (p : PPath)
  | symlink (target : PPath) (p : PPath)
  | copy2 (src dst : PPath)
deriving DecidableEq

/-- The path an operation writes to (creates, removes or replaces an entry
at), if any; the remaining operations only read. -/
def writesTo : FsOp → Option PPath
  | .unlink p => some p
  | .rmtree p => some p
  | .makedirs p => some p
  | .symlink _ p => some p
  | .copy2 _ d => some d
  | _ => none

/-- A single-component relative path (one `os.listdir` name). -/
def relName (n : String) : PPath := ⟨false, [n]⟩

/-- The filesystem calls one entry of `copy_all_files` issues (lines 80-115);
`pre` reports what already occupies a destination path (the
`os.path.exists` / `os.path.islink` probes of lines 92-96) and `rf` reports
whether the relpath computation of line 101 raises. A directory entry replays
`copy_all_files` on itself: `os.makedirs`, `os.listdir`, then its children. -/
def copyItem (pre : PPath → PreEntry) (rf : PPath → Bool) (src dst : PPath) : SrcEntry → List FsOp
  | .file n => [.copy2 (pathJoin src (relName n)) (pathJoin dst (relName n))]
  | .link n target =>
    let sp := pathJoin src (relName n)
    let dp := pathJoin dst (relName n)
    [.readlink sp, .existsCheck dp]
    ++ (if os_path_exists (pre dp) then
          (if os_path_islink (pre dp) then [.unlink dp] else [.rmtree dp])
        else [])
    ++ [.symlink (createdLinkTarget sp dp target (rf dp)) dp]
  | .dir n es =>
    let s := pathJoin src (relName n)
    let d := pathJoin dst (relName n)
    .makedirs d :: .listdir s ::
      (es.attach.map (fun x => copyItem pre rf s d x.1)).flatten
termination_by e => sizeOf e
decreasing_by
  have hm := List.sizeOf_lt_of_mem x.2
  simp only [SrcEntry.dir.sizeOf_spec]
  omega

/-- `copy_all_files(source_dir, destination_dir)` as its trace of filesystem
calls: `os.makedirs(destination_dir, exist_ok=True)`, `os.listdir(source_dir)`,
then each listed entry in order. -/
def copy_all_files (pre : PPath → PreEntry) (rf : PPath → Bool)
    (src dst : PPath) (entries : List SrcEntry) : List FsOp :=
  .makedirs dst :: .listdir src :: (entries.map (copyItem pre rf src dst)).flatten

/-- `Path(lib_dir).rglob("*")` on one entry: the entry itself and, for a
directory, every descendant, as component paths relative to `lib_dir`. -/
def rglobEntry : SrcEntry → List (List String)
  | .file n => [[n]]
  | .link n _ => [[n]]
  | .dir n es =>
    [n] :: (es.attach.map (fun x => (rglobEntry x.1).map (fun p => n :: p))).flatten
termination_by e => sizeOf e
decreasing_by
  have hm := List.sizeOf_lt_of_mem x.2
  simp only [SrcEntry.dir.sizeOf_spec]
  omega

/-- `list(Path(lib_dir).rglob("*"))` over the whole listing. -/
def rglobAll (es : List SrcEntry) : List (List String) :=
  (es.map rglobEntry).flatten

/-- `build_extension` (lines 48-74): raise `FileNotFoundError` when the
library directory is missing or when its recursive listing is empty, and only
otherwise touch the destination (`os.makedirs(extdir)` then
`copy_all_files(lib_dir, extdir)`). The result pairs the filesystem calls
performed with the exception raised, if any. -/
def build_extension (libDirIsDir : Bool) (entries : List SrcEntry)
    (pre : PPath → PreEntry) (rf : PPath → Bool) (lib_dir extdir : PPath) :
    List FsOp × Option String :=
  if ¬ libDirIsDir then
    ([], some "FileNotFoundError: library directory does not exist")
  else if (rglobAll entries).isEmpty then
    ([], some "FileNotFoundError: library directory is empty")
  else
    (FsOp.makedirs extdir :: copy_all_files pre rf lib_dir extdir entries, none)

/-- Does the character list start with the given run. -/
def listStartsWith : List Char → List Char → Bool
  | _, [] => true
  | [], _ :: _ => false
  | a :: as, b :: bs => a == b && listStartsWith as bs

/-- Python `needle in hay` on strings: substring containment. -/
def listContainsSub (needle : List Char) : List Char → Bool
  | [] => needle.isEmpty
  | c :: t => listStartsWith (c :: t) needle || listContainsSub needle t

/-- Python `needle in hay` lifted to `String`. -/
def containsSub (hay needle : String) : Bool :=
  listContainsSub needle.data hay.data

/-- Python `s.endswith(pat)`. -/
def strEndsWith (s pat : String) : Bool :=
  listStartsWith s.data.reverse pat.data.reverse

/-- Line 126 of `_fix_file_permissions`: does the file name mark a shared
library — `filepath.endswith((".so", ".dylib")) or ".so." in file`. -/
def sharedLibFileMatch (filepath fname : String) : Bool :=
  strEndsWith filepath ".so" || strEndsWith filepath ".dylib" || containsSub fname ".so."

/-- Line 127: `os.chmod(filepath, os.stat(filepath).st_mode | 0o755)` —
the new permission bits of a matched file. -/
def fixedFileMode (mode : Nat) : Nat := Nat.lor mode 0o755

/-- The permission pass on one walked file: chmod exactly the files whose
name matches the shared-library test. -/
def fixPermStep (filepath fname : String) (mode : Nat) : Nat :=
  if sharedLibFileMatch filepath fname then fixedFileMode mode else mode

/-- Leading run of decimal digits of a character list, and the rest. -/
def spanDigits : List Char → List Char × List Char
  | [] => ([], [])
  | c :: t =>
    if c.isDigit then
      let r := spanDigits t
      (c :: r.1, r.2)
    else ([], c :: t)

/-- Match the regex `(\d+\.\d+)(\.\d+)?` anchored at the current position and
return group 1 (`major.minor`): a maximal digit run, a dot, a digit run. -/
def matchVersionAt (cs : List Char) : Option String :=
  let s1 := spanDigits cs
  if s1.1.isEmpty then none
  else
    match s1.2 with
    | '.' :: r2 =>
      let s2 := spanDigits r2
      if s2.1.isEmpty then none else some (String.mk (s1.1 ++ '.' :: s2.1))
    | _ => none

/-- `re.search(r"(\d+\.\d+)(\.\d+)?", out)`: leftmost match, group 1. -/
def searchGlibcVersion : List Char → Option String
  | [] => none
  | c :: t =>
    match matchVersionAt (c :: t) with
    | some v => some v
    | none => searchGlibcVersion t

/-- Python string `<` (lexicographic on code points). -/
def pyStrLtList : List Char → List Char → Bool
  | [], [] => false
  | [], _ :: _ => true
  | _ :: _, [] => false
  | a :: as, b :: bs => if a < b then true else if b < a then false else pyStrLtList as bs

/-- Python string `>=`, the comparison lines 184-191 apply to the detected
glibc version: note this compares strings, not numeric versions. -/
def pyStrGe (a b : String) : Bool := ! pyStrLtList a.data b.data

/-- Lines 184-193: map the detected `glibc_version` string through the
threshold chain with Python string comparison. -/
def manylinuxTagOfVersion (glibc_version : String) : String :=
  if pyStrGe glibc_version "2.35" then "manylinux_2_35_x86_64"
  else if pyStrGe glibc_version "2.34" then "manylinux_2_34_x86_64"
  else if pyStrGe glibc_version "2.31" then "manylinux_2_31_x86_64"
  else if pyStrGe glibc_version "2.17" then "manylinux_2_17_x86_64"
  else "manylinux_2_12_x86_64"

/-- The host probes `_get_linux_platform_tag` performs: the text of
`ldd --version` (`none` when `subprocess.run` raises one of the caught
`SubprocessError` / `FileNotFoundError`), and whether `/lib64/libc.so.6`
exists (`none` when that probe raises, swallowed by the bare except). -/
structure LinuxProbe where
  lddOut : Option String
  libcExists : Option Bool
deriving DecidableEq

/-- Lines 197-208, method 2 and the default: whatever the filesystem
heuristic reports, the result is the fixed recent-baseline tag. -/
def linuxMethod2 (probe : LinuxProbe) : String :=
  match probe.libcExists with
  | some true => "manylinux_2_34_x86_64"
  | _ => "manylinux_2_34_x86_64"

/-- `_get_linux_platform_tag` (lines 163-208). The `plat` argument is taken
but never consulted by the body, exactly as in the source. -/
def get_linux_platform_tag (probe : LinuxProbe) (_plat : String) : String :=
  match probe.lddOut with
  | some out =>
    if containsSub out "glibc" || containsSub out "GLIBC" then
      match searchGlibcVersion out.data with
      | some v => manylinuxTagOfVersion v
      | none => linuxMethod2 probe
    else linuxMethod2 probe
  | none => linuxMethod2 probe

/-- The parsed glibc version the resolver extracts, if any: method 1
succeeded end to end. -/
def parsedGlibcVersion (probe : LinuxProbe) : Option String :=
  match probe.lddOut with
  | some out =>
    if containsSub out "glibc" || containsSub out "GLIBC" then
      searchGlibcVersion out.data
    else none
  | none => none

/-- Python `.lower()` (ASCII range, which covers every OS and machine name
compared against). -/
def pyLower (s : String) : String := String.mk (s.data.map Char.toLower)

/-- `_get_macos_platform_tag` (lines 210-217): branch on
`platform.machine().lower()`. -/
def get_macos_platform_tag (machine : String) : String :=
  if pyLower machine = "arm64" then "macosx_11_0_arm64" else "macosx_10_15_x86_64"

/-- `_get_windows_platform_tag` (lines 219-224). -/
def get_windows_platform_tag (plat : String) : String :=
  if containsSub plat "amd64" || containsSub plat "x64" then "win_amd64" else "win32"

/-- `get_tag` (lines 144-161), restricted to the platform component: dispatch
on `platform.system().lower()`, leaving `plat` untouched for unknown systems. -/
def get_tag_plat (system machine : String) (probe : LinuxProbe) (plat : String) : String :=
  if pyLower system = "linux" then get_linux_platform_tag probe plat
  else if pyLower system = "darwin" then get_macos_platform_tag machine
  else if pyLower system = "windows" then get_windows_platform_tag plat
  else plat

/-- The five tags the Linux threshold table can produce. -/
def manylinuxTags : List String :=
  ["manylinux_2_35_x86_64", "manylinux_2_34_x86_64", "manylinux_2_31_x86_64",
   "manylinux_2_17_x86_64", "manylinux_2_12_x86_64"]

/-- Every tag constant the resolver can produce. -/
def knownPlatformTags : List String :=
  ["manylinux_2_35_x86_64", "manylinux_2_34_x86_64", "manylinux_2_31_x86_64",
   "manylinux_2_17_x86_64", "manylinux_2_12_x86_64",
   "macosx_11_0_arm64", "macosx_10_15_x86_64", "win_amd64", "win32"]

/-- Decimal value of a digit run. -/
def digitsToNat (l : List Char) : Nat :=
  l.foldl (fun n c => 10 * n + (c.toNat - 48)) 0

/-- Numeric reading of a `major.minor` version string, following the words of
the specification (the ascending threshold table is about version numbers). -/
def versionPair (v : String) : Option (Nat × Nat) :=
  let s1 := spanDigits v.data
  if s1.1.isEmpty then none
  else
    match s1.2 with
    | '.' :: r2 =>
      let s2 := spanDigits r2
      if s2.1.isEmpty ∨ ¬ s2.2.isEmpty then none
      else some (digitsToNat s1.1, digitsToNat s2.1)
    | _ => none

/-- Numeric order on `major.minor` pairs. -/
def versionLtNum (p q : Nat × Nat) : Bool :=
  p.1 < q.1 || (p.1 = q.1 && p.2 < q.2)

/-- Line 261: the extension set `check_prerequisites` recognises. -/
def library_extensions : List String :=
  [".so", ".dylib", ".dll", ".pyd", ".a", ".lib"]

/-- Python `"\n".join(lines)`. -/
def joinLines : List String → String
  | [] => ""
  | [e] => e
  | e :: f :: rest => e ++ "\n" ++ joinLines (f :: rest)

/-- The violation list `check_prerequisites` accumulates (lines 249-267),
as a function of whether `install/lib` exists, its direct `iterdir` listing,
and the suffixes of its recursive `rglob` listing. -/
def prereqErrors (libDirExists : Bool) (iterdirEntries rglobSuffixes : List String) :
    List String :=
  (if ¬ libDirExists then ["Directory install/lib does not exist."]
   else if iterdirEntries.isEmpty then ["Directory install/lib is empty."]
   else [])
  ++ (if libDirExists ∧ ¬ (rglobSuffixes.any (fun s => library_extensions.contains s)) then
        ["No library files found in install/lib"]
      else [])

/-- The build-instruction epilogue appended to the diagnostic, lines 271-275. -/
def prereqInstructions : String :=
  "\n\nPlease compile the C++ SDK first:\n1. mkdir build and cd build\n2. cmake\n3. make -j4\n4. make install\n"

/-- `check_prerequisites` (lines 247-276): `none` when all checks pass,
otherwise the `RuntimeError` message joining every violation, with the build
instructions appended. -/
def check_prerequisites (libDirExists : Bool) (iterdirEntries rglobSuffixes : List String) :
    Option String :=
  let errors := prereqErrors libDirExists iterdirEntries rglobSuffixes
  if errors.isEmpty then none
  else some (joinLines errors ++ prereqInstructions)

/-- The module-level invocation (lines 280-284): catch the `RuntimeError`,
print a warning, and continue to `setup()` either way. Returns the printed
warning lines and whether execution proceeds. -/
def run_prereq_check (libDirExists : Bool) (iterdirEntries rglobSuffixes : List String) :
    List String × Bool :=
  match check_prerequisites libDirExists iterdirEntries rglobSuffixes with
  | some msg =>
    (["Warning: " ++ msg,
      "Continuing setup, but installation may fail if libraries are missing."], true)
  | none => ([], true)

/-- Is `a` a leading run of components of `b` (so `b` names `a` itself or an
entry inside the subtree rooted at `a`). -/
def underComps : List String → List String → Bool
  | [], _ => true
  | _ :: _, [] => false
  | a :: as, b :: bs => a == b && underComps as bs

theorem normFrom_append (l1 : List String) : ∀ (acc l2 : List String),
    normFrom acc (l1 ++ l2) = normFrom (normFrom acc l1) l2 := by
  induction l1 with
  | nil => intro acc l2; rfl
  | cons c t ih =>
    intro acc l2
    by_cases h1 : c = "" ∨ c = "."
    · simp only [List.cons_append, normFrom, if_pos h1]; exact ih acc l2
    · by_cases h2 : c = ".."
      · simp only [List.cons_append, normFrom, if_neg h1, if_pos h2]; exact ih _ l2
      · simp only [List.cons_append, normFrom, if_neg h1, if_neg h2]; exact ih _ l2

theorem normFrom_plain : ∀ (l acc : List String),
    (∀ c ∈ l, ¬ (c = "" ∨ c = "." ∨ c = "..")) → normFrom acc l = acc ++ l := by
  intro l
  induction l with
  | nil => intro acc _; simp [normFrom]
  | cons c t ih =>
    intro acc h
    have hc := h c (List.mem_cons_self c t)
    have h1 : ¬ (c = "" ∨ c = ".") := by tauto
    have h2 : c ≠ ".." := by tauto
    simp only [normFrom, if_neg h1, if_neg h2]
    rw [ih _ (fun d hd => h d (List.mem_cons_of_mem c hd))]
    simp

theorem mem_normFrom : ∀ (l acc : List String), ∀ c ∈ normFrom acc l,
    c ∈ acc ∨ ¬ (c = "" ∨ c = "." ∨ c = "..") := by
  intro l
  induction l with
  | nil => intro acc c hc; exact Or.inl (by simpa [normFrom] using hc)
  | cons d t ih =>
    intro acc c hc
    by_cases h1 : d = "" ∨ d = "."
    · simp only [normFrom, if_pos h1] at hc; exact ih acc c hc
    · by_cases h2 : d = ".."
      · simp only [normFrom, if_neg h1, if_pos h2] at hc
        rcases ih _ c hc with h | h
        · exact Or.inl (List.dropLast_subset acc h)
        · exact Or.inr h
      · simp only [normFrom, if_neg h1, if_neg h2] at hc
        rcases ih _ c hc with h | h
        · rcases List.mem_append.mp h with h3 | h3
          · exact Or.inl h3
          · simp only [List.mem_singleton] at h3
            subst h3
            exact Or.inr (by tauto)
        · exact Or.inr h

theorem mem_normAbs (l : List String) : ∀ c ∈ normAbs l, ¬ (c = "" ∨ c = "." ∨ c = "..") :=
  fun c hc => (mem_normFrom l [] c hc).resolve_left (by simp)

theorem normFrom_replicate_dotdot : ∀ (k : Nat) (acc : List String),
    normFrom acc (List.replicate k "..") = acc.take (acc.length - k) := by
  intro k
  induction k with
  | zero => intro acc; simp [normFrom]
  | succ n ih =>
    intro acc
    simp only [List.replicate_succ, normFrom]
    rw [if_neg (by decide), if_pos trivial, ih acc.dropLast, List.length_dropLast,
      List.dropLast_eq_take, List.take_take]
    congr 1
    omega

theorem commonLen_le_left : ∀ a b : List String, commonLen a b ≤ a.length
  | [], _ => by simp [commonLen]
  | _ :: _, [] => by simp [commonLen]
  | a :: as, b :: bs => by
    simp only [commonLen, List.length_cons]
    split
    · have := commonLen_le_left as bs; omega
    · omega

theorem commonLen_take_eq : ∀ a b : List String,
    a.take (commonLen a b) = b.take (commonLen a b)
  | [], _ => by simp [commonLen]
  | _ :: _, [] => by simp [commonLen]
  | a :: as, b :: bs => by
    simp only [commonLen]
    split
    · rename_i h
      simp [List.take_succ_cons, h, commonLen_take_eq as bs]
    · simp

theorem normFrom_rel_core (sa pa : List String)
    (hpl : ∀ c ∈ pa, ¬ (c = "" ∨ c = "." ∨ c = "..")) :
    normFrom sa (List.replicate (sa.length - commonLen sa pa) ".." ++ pa.drop (commonLen sa pa))
      = pa := by
  rw [normFrom_append, normFrom_replicate_dotdot]
  have hle := commonLen_le_left sa pa
  have h2 : sa.length - (sa.length - commonLen sa pa) = commonLen sa pa := by omega
  rw [h2, commonLen_take_eq sa pa,
    normFrom_plain _ _ (fun c hc => hpl c (List.drop_subset _ _ hc))]
  exact List.take_append_drop _ _

theorem relpath_resolves (s p : List String) :
    normAbs (s ++ relpathComps p s) = normAbs p := by
  show normFrom [] (s ++ relpathComps p s) = normAbs p
  rw [normFrom_append]
  show normFrom (normAbs s) (relpathComps p s) = normAbs p
  simp only [relpathComps]
  exact normFrom_rel_core (normAbs s) (normAbs p) (mem_normAbs p)

/-- C2 (amended): for a symlink whose raw target is resolved against the
link's own directory, the replicator creates a relative link computed
relative to the destination link's directory; resolving that relative link
from the destination directory reaches the resolved absolute target on the
source side (not the equivalent path inside the destination tree), and when
the relative-path computation raises, the link falls back to the original
absolute target. -/
theorem copy_symlink_relative_target (sp dp raw : PPath)
    (_h1 : sp.absolute = true) (_h2 : dp.absolute = true) :
    createdLinkTarget sp dp raw false
        = relpathP (resolveLinkTarget sp raw) (pathDirname dp)
    ∧ resolveAt (pathDirname dp) (createdLinkTarget sp dp raw false)
        = normAbs (resolveLinkTarget sp raw).comps
    ∧ createdLinkTarget sp dp raw true = resolveLinkTarget sp raw := by
  refine ⟨rfl, ?_, rfl⟩
  show resolveAt (pathDirname dp) (relpathP (resolveLinkTarget sp raw) (pathDirname dp))
      = normAbs (resolveLinkTarget sp raw).comps
  simp only [resolveAt, relpathP]
  rw [if_neg (by simp)]
  exact relpath_resolves (pathDirname dp).comps (resolveLinkTarget sp raw).comps

/-- Witness for `copy_symlink_relative_target` at a concrete link. -/
theorem copy_symlink_relative_target_witness :
    createdLinkTarget ⟨true, ["a", "l"]⟩ ⟨true, ["b", "l"]⟩ ⟨false, ["t"]⟩ false
        = relpathP (resolveLinkTarget ⟨true, ["a", "l"]⟩ ⟨false, ["t"]⟩)
            (pathDirname ⟨true, ["b", "l"]⟩)
    ∧ resolveAt (pathDirname ⟨true, ["b", "l"]⟩)
          (createdLinkTarget ⟨true, ["a", "l"]⟩ ⟨true, ["b", "l"]⟩ ⟨false, ["t"]⟩ false)
        = normAbs (resolveLinkTarget ⟨true, ["a", "l"]⟩ ⟨false, ["t"]⟩).comps
    ∧ createdLinkTarget ⟨true, ["a", "l"]⟩ ⟨true, ["b", "l"]⟩ ⟨false, ["t"]⟩ true
        = resolveLinkTarget ⟨true, ["a", "l"]⟩ ⟨false, ["t"]⟩ :=
  copy_symlink_relative_target ⟨true, ["a", "l"]⟩ ⟨true, ["b", "l"]⟩ ⟨false, ["t"]⟩ rfl rfl

/-- C2 counterexample: replicating `/src/liba.so -> liba.so.1` into `/dst`
creates the relative link `../src/liba.so.1`, which resolves from `/dst` to
`/src/liba.so.1` — the original source-side path, not the equivalent path
`/dst/liba.so.1` inside the destination tree. -/
theorem copy_symlink_points_into_source :
    createdLinkTarget ⟨true, ["src", "liba.so"]⟩ ⟨true, ["dst", "liba.so"]⟩
        ⟨false, ["liba.so.1"]⟩ false = ⟨false, ["..", "src", "liba.so.1"]⟩
    ∧ resolveAt (pathDirname ⟨true, ["dst", "liba.so"]⟩)
        ⟨false, ["..", "src", "liba.so.1"]⟩ = ["src", "liba.so.1"]
    ∧ (["src", "liba.so.1"] : List String) ≠ ["dst", "liba.so.1"] := by
  refine ⟨by decide, by decide, by decide⟩

/-- C3 (amended): when the entry already holding the destination path exists
after following symlinks — a non-dangling symlink or a directory — the
replicator removes it (unlink for the symlink, rmtree for the directory) and
then creates the new link with no error. -/
theorem collision_overwritten_cleanly (e : PreEntry) (lt d : PPath) (rf : Bool)
    (h : e = PreEntry.symlinkEnt true ∨ e = PreEntry.dirEnt) :
    removeExisting e = Except.ok PreEntry.noentry
    ∧ exceptOk (copySymlinkEntry e lt d rf) = true := by
  rcases h with rfl | rfl
  · cases rf <;> exact ⟨rfl, rfl⟩
  · cases rf <;> exact ⟨rfl, rfl⟩

/-- Witness for `collision_overwritten_cleanly` on a directory collision. -/
theorem collision_overwritten_cleanly_witness :
    removeExisting PreEntry.dirEnt = Except.ok PreEntry.noentry
    ∧ exceptOk (copySymlinkEntry PreEntry.dirEnt ⟨true, ["x"]⟩ ⟨true, ["y"]⟩ false) = true :=
  collision_overwritten_cleanly PreEntry.dirEnt ⟨true, ["x"]⟩ ⟨true, ["y"]⟩ false (Or.inr rfl)

/-- C3 counterexample: a dangling symlink occupies the destination path
(`os.path.lexists` true, and it is a symlink), but `os.path.exists` follows
the link and reports false, so the entry is not removed and both `os.symlink`
attempts raise `FileExistsError` — an error instead of a clean overwrite. -/
theorem dangling_symlink_collision_error :
    os_path_lexists (PreEntry.symlinkEnt false) = true
    ∧ os_path_islink (PreEntry.symlinkEnt false) = true
    ∧ copySymlinkEntry (PreEntry.symlinkEnt false) ⟨true, ["a"]⟩ ⟨true, ["b"]⟩ false
        = Except.error "FileExistsError" :=
  ⟨rfl, rfl, rfl⟩

/-- C10: a regular file at the destination path is seen by `os.path.exists`
but is not a symlink, so the removal branch hands it to `shutil.rmtree`,
which raises on a non-directory; the replication errors out instead of
overwriting the file. -/
theorem file_collision_rmtree_error (lt d : PPath) (rf : Bool) :
    os_path_exists PreEntry.fileEnt = true
    ∧ os_path_islink PreEntry.fileEnt = false
    ∧ removeExisting PreEntry.fileEnt = shutil_rmtree PreEntry.fileEnt
    ∧ copySymlinkEntry PreEntry.fileEnt lt d rf = Except.error "NotADirectoryError" :=
  ⟨rfl, rfl, rfl, rfl⟩

theorem lor_755_land_111 (m : Nat) : Nat.land (Nat.lor m 0o755) 0o111 = 0o111 := by
  show ((m ||| 0o755) &&& 0o111) = 0o111
  apply Nat.eq_of_testBit_eq
  intro i
  have e : ((0o755 : Nat) &&& 0o111) = 0o111 := by decide
  have h2 := congrArg (fun x => Nat.testBit x i) e
  simp only [Nat.testBit_and, Nat.testBit_or] at h2 ⊢
  cases hm : Nat.testBit m i <;> cases h7 : Nat.testBit 0o755 i <;>
    cases h1 : Nat.testBit 0o111 i <;> simp_all

/-- C4 (amended): every file whose name matches the shared-library test gets
its permission bits replaced by the old bits OR `0o755` (owner rwx, group and
other rx) — in particular the result includes owner, group and other
execute. -/
theorem shared_lib_chmod (filepath fname : String) (mode : Nat)
    (h : sharedLibFileMatch filepath fname = true) :
    fixPermStep filepath fname mode = Nat.lor mode 0o755
    ∧ Nat.land (fixPermStep filepath fname mode) 0o111 = 0o111 := by
  unfold fixPermStep
  rw [if_pos h]
  exact ⟨rfl, lor_755_land_111 mode⟩

/-- Witness for `shared_lib_chmod` on a typical shared object. -/
theorem shared_lib_chmod_witness :
    fixPermStep "liba.so" "liba.so" 0o644 = Nat.lor 0o644 0o755
    ∧ Nat.land (fixPermStep "liba.so" "liba.so" 0o644) 0o111 = 0o111 :=
  shared_lib_chmod "liba.so" "liba.so" 0o644 (by decide)

/-- C4 counterexample: on a file with mode `0o600` the pass writes `0o755`,
while OR-ing only the three execute bits would give `0o711`; the pass
changes read and write bits too, so the claimed exact-OR with `0o111` is
false. -/
theorem shared_lib_chmod_not_exec_only :
    fixPermStep "liba.so" "liba.so" 0o600 = 0o755
    ∧ Nat.lor 0o600 0o111 = 0o711
    ∧ (0o755 : Nat) ≠ 0o711 := by
  refine ⟨by decide, by decide, by decide⟩

/-- C5: when the library directory is missing or its recursive listing is
empty, `build_extension` raises `FileNotFoundError` having performed no
filesystem operation: the destination directory is neither created nor
written. -/
theorem missing_source_aborts_before_mutation (libDirIsDir : Bool)
    (entries : List SrcEntry) (pre : PPath → PreEntry) (rf : PPath → Bool)
    (lib_dir extdir : PPath)
    (h : libDirIsDir = false ∨ entries = []) :
    (build_extension libDirIsDir entries pre rf lib_dir extdir).1 = []
    ∧ (build_extension libDirIsDir entries pre rf lib_dir extdir).2.isSome = true := by
  rcases h with rfl | rfl
  · simp [build_extension]
  · cases libDirIsDir
    · simp [build_extension]
    · simp [build_extension, rglobAll]

/-- Witness for `missing_source_aborts_before_mutation`. -/
theorem missing_source_aborts_witness :
    (build_extension false [] (fun _ => PreEntry.noentry) (fun _ => false)
        ⟨true, ["l"]⟩ ⟨true, ["e"]⟩).1 = []
    ∧ (build_extension false [] (fun _ => PreEntry.noentry) (fun _ => false)
        ⟨true, ["l"]⟩ ⟨true, ["e"]⟩).2.isSome = true :=
  missing_source_aborts_before_mutation false [] (fun _ => PreEntry.noentry)
    (fun _ => false) ⟨true, ["l"]⟩ ⟨true, ["e"]⟩ (Or.inl rfl)

theorem underComps_append_self : ∀ (a l : List String), underComps a (a ++ l) = true
  | [], _ => rfl
  | x :: xs, l => by simp [underComps, underComps_append_self xs l]

theorem underComps_eq_true_iff : ∀ (a b : List String),
    underComps a b = true ↔ ∃ t, b = a ++ t
  | [], b => by simp [underComps]
  | x :: xs, [] => by simp [underComps]
  | x :: xs, y :: ys => by
    simp only [underComps, Bool.and_eq_true, beq_iff_eq]
    constructor
    · rintro ⟨rfl, h⟩
      obtain ⟨t, rfl⟩ := (underComps_eq_true_iff xs ys).mp h
      exact ⟨t, rfl⟩
    · rintro ⟨t, ht⟩
      rw [List.cons_append] at ht
      injection ht with hxy hrest
      exact ⟨hxy.symm, (underComps_eq_true_iff xs ys).mpr ⟨t, hrest⟩⟩

theorem append_eq_append_under : ∀ (a c t u : List String), a ++ t = c ++ u →
    underComps a c = true ∨ underComps c a = true
  | [], c, _, _, _ => Or.inl rfl
  | _ :: _, [], _, _, _ => Or.inr rfl
  | a :: as, c :: cs, t, u, h => by
    rw [List.cons_append, List.cons_append] at h
    injection h with hac hrest
    rcases append_eq_append_under as cs t u hrest with h2 | h2
    · exact Or.inl (by simp [underComps, hac, h2])
    · exact Or.inr (by simp [underComps, hac, h2])

theorem copyItem_writes_append : ∀ (n : Nat) (e : SrcEntry), sizeOf e ≤ n →
    ∀ (pre : PPath → PreEntry) (rf : PPath → Bool) (src dst : PPath) (op : FsOp),
      op ∈ copyItem pre rf src dst e → ∀ p : PPath, writesTo op = some p →
        ∃ t, p.comps = dst.comps ++ t := by
  intro n
  induction n with
  | zero =>
    intro e he
    exfalso
    cases e <;> simp only [SrcEntry.file.sizeOf_spec, SrcEntry.link.sizeOf_spec,
      SrcEntry.dir.sizeOf_spec] at he <;> omega
  | succ m ih =>
    intro e he pre rf src dst op hop p hp
    cases e with
    | file nm =>
      simp only [copyItem, List.mem_singleton] at hop
      subst hop
      simp only [writesTo, Option.some.injEq] at hp
      subst hp
      exact ⟨[nm], by simp [pathJoin, relName]⟩
    | link nm target =>
      simp only [copyItem, List.append_assoc, List.cons_append, List.mem_cons,
        List.mem_append, List.mem_singleton] at hop
      rcases hop with rfl | rfl | hop
      · simp [writesTo] at hp
      · simp [writesTo] at hp
      · have hdp : op = FsOp.symlink
            (createdLinkTarget (pathJoin src (relName nm)) (pathJoin dst (relName nm))
              target (rf (pathJoin dst (relName nm)))) (pathJoin dst (relName nm))
            ∨ op = FsOp.unlink (pathJoin dst (relName nm))
            ∨ op = FsOp.rmtree (pathJoin dst (relName nm)) := by
          rcases hop with hop | hop | hop | hop
          · simp at hop
          · split at hop
            · split at hop
              · simp only [List.mem_singleton] at hop; exact Or.inr (Or.inl hop)
              · simp only [List.mem_singleton] at hop; exact Or.inr (Or.inr hop)
            · simp at hop
          · exact Or.inl hop
          · simp at hop
        rcases hdp with rfl | rfl | rfl <;>
          · simp only [writesTo, Option.some.injEq] at hp
            subst hp
            exact ⟨[nm], by simp [pathJoin, relName]⟩
    | dir nm es =>
      simp only [copyItem, List.mem_cons] at hop
      rcases hop with rfl | rfl | hop
      · simp only [writesTo, Option.some.injEq] at hp
        subst hp
        exact ⟨[nm], by simp [pathJoin, relName]⟩
      · simp [writesTo] at hp
      · rw [List.mem_flatten] at hop
        obtain ⟨l, hl, hop⟩ := hop
        rw [List.mem_map] at hl
        obtain ⟨x, hx, rfl⟩ := hl
        have hsz : sizeOf x.1 ≤ m := by
          have hlt := List.sizeOf_lt_of_mem x.2
          simp only [SrcEntry.dir.sizeOf_spec] at he
          omega
        obtain ⟨t, ht⟩ := ih x.1 hsz pre rf (pathJoin src (relName nm))
          (pathJoin dst (relName nm)) op hop p hp
        refine ⟨[nm] ++ t, ?_⟩
        rw [ht]
        simp [pathJoin, relName]

/-- C7: every filesystem call of `copy_all_files` that creates, removes or
replaces an entry acts at a path below the destination directory; given that
source and destination are disjoint subtrees, no write ever touches the
source subtree — all operations on source paths are read-only. -/
theorem replicator_mutates_destination_only (pre : PPath → PreEntry)
    (rf : PPath → Bool) (src dst : PPath) (entries : List SrcEntry)
    (h1 : underComps src.comps dst.comps = false)
    (h2 : underComps dst.comps src.comps = false) :
    ∀ op ∈ copy_all_files pre rf src dst entries, ∀ p : PPath,
      writesTo op = some p →
        underComps dst.comps p.comps = true ∧ underComps src.comps p.comps = false := by
  intro op hop p hp
  have hex : ∃ t, p.comps = dst.comps ++ t := by
    simp only [copy_all_files, List.mem_cons] at hop
    rcases hop with rfl | rfl | hop
    · simp only [writesTo, Option.some.injEq] at hp
      subst hp
      exact ⟨[], by simp⟩
    · simp [writesTo] at hp
    · rw [List.mem_flatten] at hop
      obtain ⟨l, hl, hop⟩ := hop
      rw [List.mem_map] at hl
      obtain ⟨e, _, rfl⟩ := hl
      exact copyItem_writes_append (sizeOf e) e le_rfl pre rf src dst op hop p hp
  obtain ⟨t, ht⟩ := hex
  constructor
  · rw [ht]
    exact underComps_append_self _ _
  · by_contra hcon
    rw [Bool.not_eq_false] at hcon
    obtain ⟨u, hu⟩ := (underComps_eq_true_iff _ _).mp hcon
    rw [ht] at hu
    rcases append_eq_append_under dst.comps src.comps t u hu with h3 | h3
    · rw [h3] at h2; simp at h2
    · rw [h3] at h1; simp at h1

/-- Witness for `replicator_mutates_destination_only`: the `os.makedirs` call
on the destination root of a one-file replication. -/
theorem replicator_mutates_destination_only_witness :
    underComps ["d"] ["d"] = true ∧ underComps ["s"] ["d"] = false :=
  replicator_mutates_destination_only (fun _ => PreEntry.noentry) (fun _ => false)
    ⟨true, ["s"]⟩ ⟨true, ["d"]⟩ [SrcEntry.file "f"] (by decide) (by decide)
    (FsOp.makedirs ⟨true, ["d"]⟩) (by simp [copy_all_files]) ⟨true, ["d"]⟩ rfl

theorem strData_append (s t : String) : (s ++ t).data = s.data ++ t.data := by
  cases s
  cases t
  rfl

theorem listStartsWith_append : ∀ (a r : List Char), listStartsWith (a ++ r) a = true
  | [], _ => by simp [listStartsWith]
  | c :: t, r => by simp [listStartsWith, listStartsWith_append t r]

theorem listContainsSub_here : ∀ (a r : List Char), listContainsSub a (a ++ r) = true
  | [], [] => rfl
  | [], _ :: _ => by simp [listContainsSub, listStartsWith]
  | c :: t, r => by
    simp [List.cons_append, listContainsSub, listStartsWith, listStartsWith_append]

theorem listContainsSub_cons (needle hay : List Char) (c : Char)
    (h : listContainsSub needle hay = true) : listContainsSub needle (c :: hay) = true := by
  simp [listContainsSub, h]

theorem listContainsSub_append_left (needle pre hay : List Char)
    (h : listContainsSub needle hay = true) :
    listContainsSub needle ( pre ++ hay) = true := by
  induction pre with
  | nil => exact h
  | cons c t ih => exact listContainsSub_cons _ _ _ ih

theorem mem_joinLines_contains (tail : String) : ∀ (l : List String), ∀ e ∈ l,
    containsSub (joinLines l ++ tail) e = true := by
  intro l
  induction l with
  | nil => intro e he; simp at he
  | cons a rest ih =>
    intro e he
    cases rest with
    | nil =>
      simp only [List.mem_singleton] at he
      subst he
      show listContainsSub e.data (joinLines [e] ++ tail).data = true
      rw [show joinLines [e] = e from rfl, strData_append]
      exact listContainsSub_here _ _
    | cons b rest2 =>
      rcases List.mem_cons.mp he with rfl | he2
      · show listContainsSub e.data (joinLines (e :: b :: rest2) ++ tail).data = true
        rw [show joinLines (e :: b :: rest2) = e ++ "\n" ++ joinLines (b :: rest2) from rfl,
          strData_append, strData_append, strData_append, List.append_assoc,
          List.append_assoc]
        exact listContainsSub_here _ _
      · have hih := ih e he2
        show listContainsSub e.data (joinLines (a :: b :: rest2) ++ tail).data = true
        rw [show joinLines (a :: b :: rest2) = a ++ "\n" ++ joinLines (b :: rest2) from rfl,
          strData_append, strData_append, strData_append, List.append_assoc,
          List.append_assoc]
        refine listContainsSub_append_left _ _ _ ?_
        refine listContainsSub_append_left _ _ _ ?_
        have : listContainsSub e.data (joinLines (b :: rest2) ++ tail).data = true := hih
        rw [strData_append] at this
        exact this

/-- C8: whenever a prerequisite is violated, `check_prerequisites` produces a
`RuntimeError` message that contains each accumulated violation line, and the
module-level invocation catches it, prints warnings, and still proceeds to
`setup()`. -/
theorem prereq_violation_warns_and_continues (lde : Bool) (ents sfx : List String)
    (h : lde = false ∨ ents = []
      ∨ sfx.any (fun s => library_extensions.contains s) = false) :
    check_prerequisites lde ents sfx
        = some (joinLines (prereqErrors lde ents sfx) ++ prereqInstructions)
    ∧ (∀ e ∈ prereqErrors lde ents sfx,
        containsSub (joinLines (prereqErrors lde ents sfx) ++ prereqInstructions) e = true)
    ∧ (run_prereq_check lde ents sfx).1 ≠ []
    ∧ (run_prereq_check lde ents sfx).2 = true := by
  have hne : prereqErrors lde ents sfx ≠ [] := by
    rcases h with rfl | h
    · simp [prereqErrors]
    · cases lde
      · simp [prereqErrors]
      · rcases h with rfl | h
        · simp [prereqErrors]
        · simp only [prereqErrors, h]
          simp
  have hcheck : check_prerequisites lde ents sfx
      = some (joinLines (prereqErrors lde ents sfx) ++ prereqInstructions) := by
    unfold check_prerequisites
    rw [if_neg]
    simp [List.isEmpty_iff, hne]
  refine ⟨hcheck, fun e he => mem_joinLines_contains prereqInstructions _ e he, ?_, ?_⟩
  · unfold run_prereq_check
    rw [hcheck]
    simp
  · unfold run_prereq_check
    rw [hcheck]

/-- Witness for `prereq_violation_warns_and_continues`: a missing library
directory. -/
theorem prereq_violation_witness :
    check_prerequisites false [] []
        = some (joinLines (prereqErrors false [] []) ++ prereqInstructions)
    ∧ containsSub (joinLines (prereqErrors false [] []) ++ prereqInstructions)
        "Directory install/lib does not exist." = true
    ∧ (run_prereq_check false [] []).1 ≠ []
    ∧ (run_prereq_check false [] []).2 = true := by
  have h := prereq_violation_warns_and_continues false [] [] (Or.inl rfl)
  exact ⟨h.1, h.2.1 _ (by decide), h.2.2.1, h.2.2.2⟩

theorem manylinuxTagOfVersion_mem (v : String) :
    manylinuxTagOfVersion v ∈ manylinuxTags := by
  unfold manylinuxTagOfVersion manylinuxTags
  split_ifs <;> simp

theorem linuxMethod2_eq (probe : LinuxProbe) :
    linuxMethod2 probe = "manylinux_2_34_x86_64" := by
  obtain ⟨ldd, lib⟩ := probe
  cases lib with
  | none => rfl
  | some b => cases b <;> rfl

theorem get_linux_tag_mem (probe : LinuxProbe) (plat : String) :
    get_linux_platform_tag probe plat ∈ manylinuxTags := by
  unfold get_linux_platform_tag
  obtain ⟨ldd, lib⟩ := probe
  cases ldd with
  | none => rw [linuxMethod2_eq]; simp [manylinuxTags]
  | some out =>
    simp only
    split
    · split
      · exact manylinuxTagOfVersion_mem _
      · rw [linuxMethod2_eq]; simp [manylinuxTags]
    · rw [linuxMethod2_eq]; simp [manylinuxTags]

/-- C9: on every path of the Linux resolver — parsed glibc version,
filesystem heuristic, or unconditional default — the result ignores the
incoming platform string entirely and ends in the hard-coded architecture
`x86_64`. -/
theorem linux_tag_arch_hardcoded (probe : LinuxProbe) (plat plat2 : String) :
    get_linux_platform_tag probe plat = get_linux_platform_tag probe plat2
    ∧ strEndsWith (get_linux_platform_tag probe plat) "x86_64" = true := by
  refine ⟨rfl, ?_⟩
  have hm := get_linux_tag_mem probe plat
  have hall : ∀ t ∈ manylinuxTags, strEndsWith t "x86_64" = true := by decide
  exact hall _ hm

/-- C6: for every host environment — any system name, machine string, ldd
output or probe failure — the resolver returns either one of the fixed tag
constants or the caller-supplied platform string unchanged (exceptions of the
probes are modelled as `none` inputs and are all caught); and on Linux, every
path on which no glibc version is parsed returns the fixed recent-baseline
default tag. -/
theorem resolver_always_returns_tag (system machine : String) (probe : LinuxProbe)
    (plat : String) :
    (get_tag_plat system machine probe plat ∈ knownPlatformTags
      ∨ get_tag_plat system machine probe plat = plat)
    ∧ (pyLower system = "linux" → parsedGlibcVersion probe = none →
        get_tag_plat system machine probe plat = "manylinux_2_34_x86_64") := by
  constructor
  · unfold get_tag_plat
    split_ifs with h1 h2 h3
    · left
      have hm := get_linux_tag_mem probe plat
      have hsub : ∀ t ∈ manylinuxTags, t ∈ knownPlatformTags := by decide
      exact hsub _ hm
    · left
      unfold get_macos_platform_tag
      split_ifs <;> simp [knownPlatformTags]
    · left
      unfold get_windows_platform_tag
      split_ifs <;> simp [knownPlatformTags]
    · right; rfl
  · intro hs hn
    unfold get_tag_plat
    rw [if_pos hs]
    unfold get_linux_platform_tag
    unfold parsedGlibcVersion at hn
    obtain ⟨ldd, lib⟩ := probe
    cases ldd with
    | none => exact linuxMethod2_eq _
    | some out =>
      simp only at hn ⊢
      by_cases hc : (containsSub out "glibc" || containsSub out "GLIBC") = true
      · rw [if_pos hc] at hn ⊢
        rw [hn]
        exact linuxMethod2_eq _
      · rw [if_neg hc]
        exact linuxMethod2_eq _

/-- Witness for `resolver_always_returns_tag`: a Linux host whose `ldd` probe
and filesystem probe both raise. -/
theorem resolver_always_returns_tag_witness :
    get_tag_plat "Linux" "x86_64" ⟨none, none⟩ "linux_x86_64" = "manylinux_2_34_x86_64"
    ∧ (get_tag_plat "Linux" "x86_64" ⟨none, none⟩ "linux_x86_64" ∈ knownPlatformTags
      ∨ get_tag_plat "Linux" "x86_64" ⟨none, none⟩ "linux_x86_64" = "linux_x86_64") := by
  have h := resolver_always_returns_tag "Linux" "x86_64" ⟨none, none⟩ "linux_x86_64"
  exact ⟨h.2 (by decide) rfl, h.1⟩

/-- C1 (code bug): the threshold chain compares glibc version strings with
Python string order, not numerically. On the detected version `2.9` —
numerically below the `2.17` threshold, so the table prescribes the oldest
tag — the code returns the `2.35` tag, because the string `2.9` sorts above
the string `2.35`. -/
theorem linux_tag_string_comparison_bug :
    get_linux_platform_tag ⟨some "ldd (GNU glibc) 2.9", some true⟩ "linux_x86_64"
      = "manylinux_2_35_x86_64"
    ∧ parsedGlibcVersion ⟨some "ldd (GNU glibc) 2.9", some true⟩ = some "2.9"
    ∧ versionPair "2.9" = some (2, 9)
    ∧ versionLtNum (2, 9) (2, 17) = true
    ∧ ("manylinux_2_35_x86_64" : String) ≠ "manylinux_2_12_x86_64" := by
  refine ⟨by decide, by decide, by decide, by decide, by decide⟩
